import Mathlib

/-!
A shallow embedding of `falfaro/http_monitor` (src/http_monitor.go, with the
snapshot variants src/unnamed/part_000 and part_001).

Conventions of the embedding:

* Lines and string fields are modelled as `List Char` (`Chars`), the character
  sequence of the Go strings involved.
* `regexp.FindStringSubmatch` on `logLineRegExp` is modelled by `findMatch`:
  an unanchored leftmost search running `matchAt` at each start position.
  Inside one attempt every repetition of the regex is over a character class
  that excludes the character that must follow it (for example `[^ ]+` is
  always followed by a space, and the section/resource pair
  `(/[^/ ]*)([^ ]*)` is followed by a space while both classes exclude the
  space), so greedy maximal-munch matching with no backtracking computes
  exactly the leftmost-first match that Go's regexp engine returns.
* `time.Time` values of parsed records always carry whole seconds, so
  timestamps are modelled as `Int` (seconds since the Unix epoch) and
  `Sub(...).Seconds()` as exact integer subtraction: for whole-second
  instants of realistic magnitude the `float64` value is exact.
* The only float computation whose value matters is
  `float64(n) / delta` in `getQueryRate` and its comparison with the
  threshold.  With `n ≥ 1` and an integer `delta`, Go yields `+Inf` when
  `delta == 0` and otherwise the correctly rounded quotient; comparing that
  quotient with the threshold `10.0` agrees with the exact rational
  comparison (if n/delta > 10 then n/delta ≥ 10 + 1/delta, far above the
  rounding error; if n/delta ≤ 10 the rounded value is ≤ 10 because rounding
  is monotone and 10 is representable).  The embedding therefore uses
  `GoFloat` (`inf` or an exact rational) for this value.
* `log.Panicf` (a process abort) is modelled by `ParseResult.panicked`,
  a `(nil, err)` return by `ParseResult.failed`.
-/

namespace HttpMonitor

abbrev Chars := List Char

/-- Log record (Go struct `Log` in src/http_monitor.go, `logRecord` in the
snapshot variants).  `Timestamp` is in seconds since the Unix epoch. -/
structure Log where
  IP : Chars
  Identity : Chars
  User : Chars
  Timestamp : Int
  Action : Chars
  Section : Chars
  Resource : Chars
  Protocol : Chars
  StatusCode : Int
  Size : Int
  deriving Repr, DecidableEq

/-! ### Character classes of `logLineRegExp` -/

/-- `[0-9]` (the regex `\d`). -/
def isDigitCh (c : Char) : Bool := 48 ≤ c.toNat && c.toNat ≤ 57

/-- `[0-9A-Za-z-]` (the user field). -/
def isUserCh (c : Char) : Bool :=
  isDigitCh c || (65 ≤ c.toNat && c.toNat ≤ 90) || (97 ≤ c.toNat && c.toNat ≤ 122) || c = '-'

/-- `[0-9-]` (the size field). -/
def isSizeCh (c : Char) : Bool := isDigitCh c || c = '-'

/-! ### Matching combinators

Each combinator consumes a prefix of the input and returns the capture
together with the unconsumed rest. -/

/-- A single expected character. -/
def pChar (c : Char) : Chars → Option Chars
  | [] => none
  | x :: xs => if x = c then some xs else none

/-- A literal character sequence. -/
def pLit : Chars → Chars → Option Chars
  | [], l => some l
  | c :: cs, l => (pChar c l).bind fun r => pLit cs r

/-- Greedy `+` over a character class (maximal munch). -/
def pPlus (p : Char → Bool) (l : Chars) : Option (Chars × Chars) :=
  if l.takeWhile p = [] then none else some (l.takeWhile p, l.dropWhile p)

/-- Greedy `*` over a character class (maximal munch, never fails). -/
def pStar (p : Char → Bool) (l : Chars) : Chars × Chars :=
  (l.takeWhile p, l.dropWhile p)

/-- Exactly `n` characters of a class (`\d{n}`). -/
def pDigits : Nat → Chars → Option (Chars × Chars)
  | 0, l => some ([], l)
  | _ + 1, [] => none
  | n + 1, c :: rest =>
    if isDigitCh c then (pDigits n rest).map (fun pr => (c :: pr.1, pr.2)) else none

/-- First literal of the alternation that matches (the alternatives below are
pairwise distinct fixed-length words, so the order never matters). -/
def pAlt : List Chars → Chars → Option (Chars × Chars)
  | [], _ => none
  | a :: rest, l =>
    match pLit a l with
    | some r => some (a, r)
    | none => pAlt rest l

/-- `[+-]`. -/
def pSign : Chars → Option (Char × Chars)
  | [] => none
  | c :: rest => if c = '+' || c = '-' then some (c, rest) else none

/-- `(/[^/ ]*)` — a slash followed by the maximal run of non-slash
non-space characters. -/
def pSection (l : Chars) : Option (Chars × Chars) :=
  (pChar '/' l).map fun r =>
    ('/' :: r.takeWhile (fun c => !(c = '/' || c = ' ')),
      r.dropWhile (fun c => !(c = '/' || c = ' ')))

/-- `(HTTP/\d\.\d)`. -/
def pProtocol (l : Chars) : Option (Chars × Chars) :=
  match pLit ['H', 'T', 'T', 'P', '/'] l with
  | none => none
  | some [] => none
  | some (d1 :: rest1) =>
    if isDigitCh d1 then
      match pChar '.' rest1 with
      | none => none
      | some [] => none
      | some (d2 :: rest2) =>
        if isDigitCh d2 then some (['H', 'T', 'T', 'P', '/', d1, '.', d2], rest2)
        else none
    else none

def months : List Chars :=
  [['J','a','n'], ['F','e','b'], ['M','a','r'], ['A','p','r'], ['M','a','y'],
   ['J','u','n'], ['J','u','l'], ['A','u','g'], ['S','e','p'], ['O','c','t'],
   ['N','o','v'], ['D','e','c']]

def methods : List Chars :=
  [['G','E','T'], ['P','O','S','T'], ['P','U','T'], ['H','E','A','D'],
   ['D','E','L','E','T','E'], ['O','P','T','I','O','N','S']]

/-- The components of the timestamp capture group
`\d{2}/(Jan|...|Dec)/\d{4}:\d{2}:\d{2}:\d{2} [+-]\d{4}` as they stand in the
line; numeric fields are kept as digit sequences. -/
structure TsParts where
  dayC : Chars
  monC : Chars
  yearC : Chars
  hourC : Chars
  minC : Chars
  secC : Chars
  offSign : Char
  offC : Chars
  deriving Repr, DecidableEq

/-- Matches the timestamp group. -/
def pTs (l : Chars) : Option (TsParts × Chars) :=
  match pDigits 2 l with
  | none => none
  | some (day, r1) =>
  match pChar '/' r1 with
  | none => none
  | some r2 =>
  match pAlt months r2 with
  | none => none
  | some (mon, r3) =>
  match pChar '/' r3 with
  | none => none
  | some r4 =>
  match pDigits 4 r4 with
  | none => none
  | some (year, r5) =>
  match pChar ':' r5 with
  | none => none
  | some r6 =>
  match pDigits 2 r6 with
  | none => none
  | some (hh, r7) =>
  match pChar ':' r7 with
  | none => none
  | some r8 =>
  match pDigits 2 r8 with
  | none => none
  | some (mi, r9) =>
  match pChar ':' r9 with
  | none => none
  | some r10 =>
  match pDigits 2 r10 with
  | none => none
  | some (ss, r11) =>
  match pChar ' ' r11 with
  | none => none
  | some r12 =>
  match pSign r12 with
  | none => none
  | some (sg, r13) =>
  match pDigits 4 r13 with
  | none => none
  | some (off, r14) =>
    some ({ dayC := day, monC := mon, yearC := year, hourC := hh, minC := mi,
            secC := ss, offSign := sg, offC := off }, r14)

/-- The capture groups of `logLineRegExp`.  Group 2 is the literal `-` and is
not stored; group 5 (the month) is part of `ts`.  Numbering of the remaining
groups follows the Go regex. -/
structure Groups where
  g1 : Chars
  g3 : Chars
  ts : TsParts
  g6 : Chars
  g7 : Chars
  g8 : Chars
  g9 : Chars
  g10 : Chars
  g11 : Chars
  deriving Repr, DecidableEq

/-- One attempt of `logLineRegExp` at the current position. -/
def matchAt (l : Chars) : Option Groups :=
  match pPlus (fun c => !(c = ' ')) l with
  | none => none
  | some (ip, r1) =>
  match pLit [' ', '-', ' '] r1 with
  | none => none
  | some r2 =>
  match pPlus isUserCh r2 with
  | none => none
  | some (user, r3) =>
  match pLit [' ', '['] r3 with
  | none => none
  | some r4 =>
  match pTs r4 with
  | none => none
  | some (tsp, r5) =>
  match pLit [']', ' ', '"'] r5 with
  | none => none
  | some r6 =>
  match pAlt methods r6 with
  | none => none
  | some (meth, r7) =>
  match pChar ' ' r7 with
  | none => none
  | some r8 =>
  match pSection r8 with
  | none => none
  | some (sec, r9) =>
  match pStar (fun c => !(c = ' ')) r9 with
  | (res, r10) =>
  match pChar ' ' r10 with
  | none => none
  | some r11 =>
  match pProtocol r11 with
  | none => none
  | some (proto, r12) =>
  match pLit ['"', ' '] r12 with
  | none => none
  | some r13 =>
  match pDigits 3 r13 with
  | none => none
  | some (status, r14) =>
  match pChar ' ' r14 with
  | none => none
  | some r15 =>
  match pPlus isSizeCh r15 with
  | none => none
  | some (size, _) =>
    some { g1 := ip, g3 := user, ts := tsp, g6 := meth, g7 := sec,
           g8 := res, g9 := proto, g10 := status, g11 := size }

/-- `regexp.FindStringSubmatch`: unanchored leftmost search. -/
def findMatch : Chars → Option Groups
  | [] => matchAt []
  | l@(_ :: rest) =>
    match matchAt l with
    | some g => some g
    | none => findMatch rest

/-! ### `strconv.Atoi` -/

/-- Numeric value of a digit sequence (most significant first). -/
def digitsToNat (l : Chars) : Nat :=
  l.foldl (fun a c => 10 * a + (c.toNat - 48)) 0

/-- Go `strconv.Atoi` = `ParseInt(s, 10, 0)` on a 64-bit platform: an optional
sign followed by a non-empty run of decimal digits, rejected on overflow of
`int64`.  (On a range error Go returns the clamped value together with a
non-nil error; both callers discard the value when the error is non-nil, so
`none` models every error case.) -/
def goAtoi (s : Chars) : Option Int :=
  match s with
  | [] => none
  | c :: rest =>
    let neg : Bool := c = '-'
    let digits : Chars := if c = '-' || c = '+' then rest else s
    if digits = [] || !digits.all isDigitCh then none
    else
      let n := digitsToNat digits
      if neg then
        if n ≤ 9223372036854775808 then some (-(n : Int)) else none
      else
        if n ≤ 9223372036854775807 then some (n : Int) else none

/-! ### `time.ParseInLocation` on layout `_2/Jan/2006:15:04:05 -0700`

The regex guarantees the shape of the input, so only Go's range validation
remains: the month name selects the month, the day must fit the month (Go's
`daysIn`, Gregorian leap rule), hours 0–23, minutes and seconds 0–59.
The result is normalized to UTC: epoch seconds of the wall-clock fields minus
the numeric zone offset. -/

def monthNumber (m : Chars) : Option Nat :=
  match (months.zip [1,2,3,4,5,6,7,8,9,10,11,12]).find? (fun pr => pr.1 = m) with
  | some pr => some pr.2
  | none => none

def isLeapYear (y : Nat) : Bool := (y % 4 = 0 && y % 100 ≠ 0) || y % 400 = 0

def daysInMonth (y : Nat) (m : Nat) : Nat :=
  if m = 2 then (if isLeapYear y then 29 else 28)
  else if m = 4 || m = 6 || m = 9 || m = 11 then 30
  else 31

/-- Number of leap years in `[0, y)` (year 0 itself is a leap year). -/
def leapsBefore (y : Nat) : Nat := (y + 3) / 4 - (y + 99) / 100 + (y + 399) / 400

/-- Days from 0000-01-01 to the first day of year `y` (proleptic Gregorian). -/
def daysBeforeYear (y : Nat) : Nat := 365 * y + leapsBefore y

/-- Days from January 1 to the first day of month `m` in year `y`. -/
def daysBeforeMonth (y : Nat) (m : Nat) : Nat :=
  [0, 31, 59, 90, 120, 151, 181, 212, 243, 273, 304, 334].getD (m - 1) 0 +
    (if isLeapYear y && m > 2 then 1 else 0)

/-- Days from 0000-01-01 to `y-m-d`.  0000-01-01 is day 0; 1970-01-01 is day
719528. -/
def civilDays (y m d : Nat) : Nat := daysBeforeYear y + daysBeforeMonth y m + (d - 1)

/-- Validation and conversion of the timestamp capture, per
`time.ParseInLocation` with the embedded `-0700` offset, normalized to UTC. -/
def goParseTimestamp (t : TsParts) : Option Int :=
  match monthNumber t.monC with
  | none => none
  | some m =>
    let d := digitsToNat t.dayC
    let y := digitsToNat t.yearC
    let hh := digitsToNat t.hourC
    let mi := digitsToNat t.minC
    let ss := digitsToNat t.secC
    if 1 ≤ d && d ≤ daysInMonth y m && hh ≤ 23 && mi ≤ 59 && ss ≤ 59 then
      let offMag : Int :=
        (digitsToNat (t.offC.take 2)) * 3600 + (digitsToNat (t.offC.drop 2)) * 60
      let off : Int := if t.offSign = '-' then -offMag else offMag
      some (((civilDays y m d : Int) - 719528) * 86400
        + (hh : Int) * 3600 + (mi : Int) * 60 + (ss : Int) - off)
    else none

/-! ### `parseLogLine` -/

/-- Outcome of `parseLogLine`: `panicked` is the `log.Panicf` call on a regex
mismatch (a process abort), `failed` a `(nil, err)` return. -/
inductive ParseResult where
  | panicked : ParseResult
  | failed : ParseResult
  | ok : Log → ParseResult
  deriving Repr, DecidableEq

/-- Go `parseLogLine` (src/http_monitor.go lines 62–97). -/
def parseLogLine (s : Chars) : ParseResult :=
  match findMatch s with
  | none => ParseResult.panicked
  | some g =>
    match goParseTimestamp g.ts with
    | none => ParseResult.failed
    | some ts =>
      match goAtoi g.g10 with
      | none => ParseResult.failed
      | some code =>
        ParseResult.ok
          { IP := g.g1, Identity := ['-'], User := g.g3, Timestamp := ts,
            Action := g.g6, Section := g.g7, Resource := g.g8, Protocol := g.g9,
            StatusCode := code, Size := (goAtoi g.g11).getD 0 }

/-! ### The monitor state (`stats`) -/

/-- Internal stats (Go struct `stats`).  The Go maps are modelled as
association lists in insertion order; `map[k]++` inserts the key with value 1
when absent. -/
structure stats where
  httpResponseCodes : List (Chars × Nat)
  sectionCounts : List (Chars × Nat)
  logsInWindow : List Log
  alerting : Bool
  deriving Repr, DecidableEq

/-- `m[k]++` on a Go map. -/
def mapIncr (m : List (Chars × Nat)) (k : Chars) : List (Chars × Nat) :=
  match m with
  | [] => [(k, 1)]
  | kv :: rest => if kv.1 = k then (kv.1, kv.2 + 1) :: rest else kv :: mapIncr rest k

/-- The monitor state constructed in `main`. -/
def initStats : stats :=
  { httpResponseCodes :=
      [(['1','X','X'], 0), (['2','X','X'], 0), (['3','X','X'], 0),
       (['4','X','X'], 0), (['5','X','X'], 0)],
    sectionCounts := [],
    logsInWindow := [],
    alerting := false }

/-- `logsInWindow[n-1].Timestamp.Sub(logsInWindow[0].Timestamp).Seconds()`
for a non-empty window, `0.0` otherwise (Go `getDelta` of the snapshot
variants; the primary file computes the same expression inline). -/
def getDelta (w : List Log) : Int :=
  match w.head?, w.getLast? with
  | some a, some b => b.Timestamp - a.Timestamp
  | _, _ => 0

/-- The eviction loop of `updateAlerting`: pop records from the front while
the window is non-empty and its span exceeds 120 seconds, recomputing the
span after each pop. -/
def evictLoop : List Log → List Log
  | [] => []
  | x :: xs => if getDelta (x :: xs) > 120 then evictLoop xs else x :: xs

/-- The value of the Go float expression `float64(n) / delta` for a window
with `n = w.length > 0` entries: `+Inf` when the span is zero, otherwise the
exact quotient (see the header comment on float exactness). -/
inductive GoFloat where
  | inf : GoFloat
  | val : ℚ → GoFloat
  deriving Repr, DecidableEq

def qpsOfWindow (w : List Log) : GoFloat :=
  if getDelta w = 0 then GoFloat.inf
  else GoFloat.val ((w.length : ℚ) / (getDelta w : ℚ))

/-- `qps > *qpsThreshold` on the Go float value (`+Inf` exceeds every finite
threshold). -/
def floatGt (x : GoFloat) (thr : ℚ) : Bool :=
  match x with
  | GoFloat.inf => true
  | GoFloat.val q => decide (thr < q)

/-- Go `getQueryRate` (src/http_monitor.go lines 172–179): the rate and a nil
error for a non-empty window, otherwise an error.  (The value returned next
to the error is `0.0` in the primary file and `math.Inf(1)` in the
part_000 snapshot; every caller discards it when the error is non-nil, so
the `Except` carries no value in the error case.) -/
def getQueryRate (w : List Log) : Except String GoFloat :=
  if 0 < w.length then Except.ok (qpsOfWindow w)
  else Except.error ("Logs window is empty")

/-- Go `updateAlerting` (src/http_monitor.go lines 100–114): append the
record, evict from the front while the span exceeds 120 s, then set
`alerting := qps > thr` when `getQueryRate` returns a nil error and keep the
previous flag otherwise.  `thr` is the value of the `-qps` flag
(default 10.0). -/
def updateAlerting (thr : ℚ) (s : stats) (l : Log) : stats :=
  let w := evictLoop (s.logsInWindow ++ [l])
  match getQueryRate w with
  | Except.ok q => { s with logsInWindow := w, alerting := floatGt q thr }
  | Except.error _ => { s with logsInWindow := w }

/-- `fmt.Sprintf("%cXX", Sprintf("%d", code)[0])`: the first byte of the
decimal rendering of the status code, followed by `XX`. -/
def responseClass (code : Int) : Chars :=
  (Int.repr code).data.take 1 ++ ['X', 'X']

/-- Go `updateStats` (src/http_monitor.go lines 117–124): bump the response
class counter and the section counter, then run `updateAlerting`. -/
def updateStats (thr : ℚ) (s : stats) (l : Log) : stats :=
  updateAlerting thr
    { s with
      httpResponseCodes := mapIncr s.httpResponseCodes (responseClass l.StatusCode),
      sectionCounts := mapIncr s.sectionCounts l.Section }
    l

/-- Ingestion of a sequence of parsed records (the driver loop in `main`
feeds each parsed record to `updateStats` in order). -/
def ingestAll (thr : ℚ) (s : stats) (rs : List Log) : stats :=
  rs.foldl (updateStats thr) s

/-- The five response classes initialised in `main`. -/
def fiveKeys : List Chars :=
  [['1','X','X'], ['2','X','X'], ['3','X','X'], ['4','X','X'], ['5','X','X']]

/-- Sum of the counters of a Go map. -/
def sumVals (m : List (Chars × Nat)) : Nat := (m.map Prod.snd).sum

/-! ### Concrete inputs used to exercise the definitions

`mkLog` builds a record with a given timestamp the way the Go unit tests do
(`logRecord{Timestamp: ...}`), here with an innocuous section and status so
that full ingests are well-behaved.  The log lines are the ones from the Go
test file and small variations of them. -/

def mkLog (t : Int) : Log :=
  { IP := [], Identity := ['-'], User := [], Timestamp := t, Action := [],
    Section := ['/', 'a'], Resource := [], Protocol := [], StatusCode := 200, Size := 0 }

/-- The example line of the Go test `TestParseLogLine`. -/
def lineOK : Chars :=
  "127.0.0.1 - jill [09/May/2018:16:00:41 +0000] \"GET /api/user HTTP/1.0\" 200 234".data

/-- The record that `TestParseLogLine` expects for `lineOK`
(2018-05-09T16:00:41Z is 1525881641 s since the epoch). -/
def recOK : Log :=
  { IP := "127.0.0.1".data, Identity := ['-'], User := "jill".data,
    Timestamp := 1525881641, Action := "GET".data, Section := "/api".data,
    Resource := "/user".data, Protocol := "HTTP/1.0".data,
    StatusCode := 200, Size := 234 }

/-- `lineOK` with status field `600` (three digits outside 100–599). -/
def line600 : Chars :=
  "127.0.0.1 - jill [09/May/2018:16:00:41 +0000] \"GET /api/user HTTP/1.0\" 600 234".data

/-- The record the parser returns for `line600`. -/
def rec600 : Log :=
  { IP := "127.0.0.1".data, Identity := ['-'], User := "jill".data,
    Timestamp := 1525881641, Action := "GET".data, Section := "/api".data,
    Resource := "/user".data, Protocol := "HTTP/1.0".data,
    StatusCode := 600, Size := 234 }

/-- `lineOK` with size field `-` (unknown size). -/
def lineDash : Chars :=
  "127.0.0.1 - jill [09/May/2018:16:00:41 +0000] \"GET /api/user HTTP/1.0\" 200 -".data

/-- The record the parser returns for `lineDash`: size substituted by 0. -/
def recDash : Log :=
  { IP := "127.0.0.1".data, Identity := ['-'], User := "jill".data,
    Timestamp := 1525881641, Action := "GET".data, Section := "/api".data,
    Resource := "/user".data, Protocol := "HTTP/1.0".data,
    StatusCode := 200, Size := 0 }

/-- A line that matches the regex but has an invalid date (February 31)
and a non-numeric size field. -/
def lineBadTs : Chars :=
  "127.0.0.1 - jill [31/Feb/2018:16:00:41 +0000] \"GET /api/user HTTP/1.0\" 200 -".data

/-! ## Lemmas about the matching combinators -/

theorem pChar_eq_some {c : Char} {l r : Chars} (h : pChar c l = some r) : l = c :: r := by
  cases l with
  | nil => simp [pChar] at h
  | cons x xs =>
    by_cases hx : x = c
    · simp only [pChar, if_pos hx, Option.some.injEq] at h
      rw [hx, h]
    · simp [pChar, hx] at h

theorem pLit_eq_some : ∀ {pat l r : Chars}, pLit pat l = some r → l = pat ++ r
  | [], l, r, h => by simpa [pLit] using h
  | c :: cs, l, r, h => by
    simp only [pLit] at h
    cases hc : pChar c l with
    | none => rw [hc] at h; simp at h
    | some l' =>
      rw [hc] at h
      have h1 := pChar_eq_some hc
      have h2 := pLit_eq_some h
      rw [h1, h2]; rfl

theorem pPlus_eq_some {p : Char → Bool} {l a r : Chars} (h : pPlus p l = some (a, r)) :
    l = a ++ r ∧ a ≠ [] ∧ ∀ c ∈ a, p c = true := by
  unfold pPlus at h
  split at h
  · simp at h
  · rename_i hne
    obtain ⟨ha, hr⟩ : l.takeWhile p = a ∧ l.dropWhile p = r := by
      simpa using h
    refine ⟨by rw [← ha, ← hr]; exact (List.takeWhile_append_dropWhile ..).symm, ?_, ?_⟩
    · rw [← ha]; exact hne
    · intro c hc; rw [← ha] at hc; exact List.mem_takeWhile_imp hc

theorem pStar_eq {p : Char → Bool} {l a r : Chars} (h : pStar p l = (a, r)) :
    l = a ++ r ∧ ∀ c ∈ a, p c = true := by
  unfold pStar at h
  obtain ⟨ha, hr⟩ : l.takeWhile p = a ∧ l.dropWhile p = r := by simpa using h
  refine ⟨by rw [← ha, ← hr]; exact (List.takeWhile_append_dropWhile ..).symm, ?_⟩
  intro c hc; rw [← ha] at hc; exact List.mem_takeWhile_imp hc

theorem pDigits_eq_some : ∀ {n : Nat} {l a r : Chars}, pDigits n l = some (a, r) →
    l = a ++ r ∧ a.length = n ∧ a.all isDigitCh = true
  | 0, l, a, r, h => by
    simp only [pDigits, Option.some.injEq] at h
    obtain ⟨ha, hr⟩ : ([] : Chars) = a ∧ l = r := by simpa using h
    subst ha; subst hr; exact ⟨rfl, rfl, rfl⟩
  | n + 1, [], a, r, h => by simp [pDigits] at h
  | n + 1, c :: rest, a, r, h => by
    simp only [pDigits] at h
    split at h
    · rename_i hdig
      cases hrec : pDigits n rest with
      | none => rw [hrec] at h; simp at h
      | some pr =>
        rw [hrec] at h
        simp only [Option.map_some', Option.some.injEq] at h
        obtain ⟨ha, hr⟩ : c :: pr.1 = a ∧ pr.2 = r := by
          constructor <;> [exact congrArg Prod.fst h; exact congrArg Prod.snd h]
        obtain ⟨h1, h2, h3⟩ := pDigits_eq_some (n := n) (a := pr.1) (r := pr.2)
          (by rw [hrec])
        subst ha; subst hr
        refine ⟨by rw [h1]; rfl, by simp [h2], ?_⟩
        simp [List.all_cons, hdig, h3]
    · simp at h

theorem pAlt_eq_some : ∀ {alts : List Chars} {l a r : Chars}, pAlt alts l = some (a, r) →
    l = a ++ r ∧ a ∈ alts
  | [], l, a, r, h => by simp [pAlt] at h
  | w :: ws, l, a, r, h => by
    simp only [pAlt] at h
    cases hw : pLit w l with
    | some rest =>
      rw [hw] at h
      obtain ⟨ha, hr⟩ : w = a ∧ rest = r := by simpa using h
      subst ha; subst hr
      exact ⟨pLit_eq_some hw, List.mem_cons_self ..⟩
    | none =>
      rw [hw] at h
      obtain ⟨h1, h2⟩ := pAlt_eq_some h
      exact ⟨h1, List.mem_cons_of_mem _ h2⟩

theorem pSign_eq_some {l : Chars} {c : Char} {r : Chars} (h : pSign l = some (c, r)) :
    l = c :: r := by
  cases l with
  | nil => simp [pSign] at h
  | cons x xs =>
    simp only [pSign] at h
    split at h
    · obtain ⟨hc, hr⟩ : x = c ∧ xs = r := by simpa using h
      rw [hc, hr]
    · simp at h

theorem pSection_eq_some {l a r : Chars} (h : pSection l = some (a, r)) :
    l = a ++ r ∧ ∃ t, a = '/' :: t ∧ ∀ c ∈ t, c ≠ '/' ∧ c ≠ ' ' := by
  unfold pSection at h
  cases hc : pChar '/' l with
  | none => rw [hc] at h; simp at h
  | some rest =>
    rw [hc] at h
    simp only [Option.map_some', Option.some.injEq] at h
    obtain ⟨ha, hr⟩ :
        '/' :: rest.takeWhile (fun c => !(c = '/' || c = ' ')) = a ∧
        rest.dropWhile (fun c => !(c = '/' || c = ' ')) = r := by
      constructor <;> [exact congrArg Prod.fst h; exact congrArg Prod.snd h]
    subst ha; subst hr
    refine ⟨by rw [pChar_eq_some hc]; simp [List.takeWhile_append_dropWhile], ?_⟩
    refine ⟨_, rfl, ?_⟩
    intro c hc'
    have := List.mem_takeWhile_imp hc'
    simp only [Bool.not_eq_eq_eq_not, Bool.not_true, Bool.or_eq_false_iff,
      decide_eq_false_iff_not] at this
    exact this

theorem pProtocol_eq_some {l a r : Chars} (h : pProtocol l = some (a, r)) :
    ∃ c, l = c ++ r := by
  unfold pProtocol at h
  split at h
  · simp at h
  · simp at h
  rename_i d1 rest1 h5
  split at h
  · split at h
    · simp at h
    · simp at h
    rename_i d2 rest2 hdot
    split at h
    · obtain ⟨ha, hr⟩ :
          (['H', 'T', 'T', 'P', '/', d1, '.', d2] : Chars) = a ∧ rest2 = r := by
        simpa using h
      subst hr
      refine ⟨['H', 'T', 'T', 'P', '/', d1, '.', d2], ?_⟩
      rw [pLit_eq_some h5, pChar_eq_some hdot]
      rfl
    · simp at h
  · simp at h

/-- Gluing step for consumed-prefix chains. -/
theorem consume_trans {l m r : Chars} (h1 : ∃ c, l = c ++ m) (h2 : ∃ c, m = c ++ r) :
    ∃ c, l = c ++ r := by
  obtain ⟨c1, rfl⟩ := h1
  obtain ⟨c2, rfl⟩ := h2
  exact ⟨c1 ++ c2, (List.append_assoc ..).symm⟩

theorem pTs_eq_some {l : Chars} {t : TsParts} {r : Chars} (h : pTs l = some (t, r)) :
    ∃ c, l = c ++ r := by
  unfold pTs at h
  split at h
  · simp at h
  rename_i day r1 h1
  split at h
  · simp at h
  rename_i r2 h2
  split at h
  · simp at h
  rename_i mon r3 h3
  split at h
  · simp at h
  rename_i r4 h4
  split at h
  · simp at h
  rename_i year r5 h5
  split at h
  · simp at h
  rename_i r6 h6
  split at h
  · simp at h
  rename_i hh r7 h7
  split at h
  · simp at h
  rename_i r8 h8
  split at h
  · simp at h
  rename_i mi r9 h9
  split at h
  · simp at h
  rename_i r10 h10
  split at h
  · simp at h
  rename_i ss r11 h11
  split at h
  · simp at h
  rename_i r12 h12
  split at h
  · simp at h
  rename_i sg r13 h13
  split at h
  · simp at h
  rename_i off r14 h14
  obtain ⟨-, hr⟩ : _ ∧ r14 = r := by simpa using h
  subst hr
  refine consume_trans ⟨day, (pDigits_eq_some h1).1⟩ ?_
  refine consume_trans ⟨['/'], pChar_eq_some h2⟩ ?_
  refine consume_trans ⟨mon, (pAlt_eq_some h3).1⟩ ?_
  refine consume_trans ⟨['/'], pChar_eq_some h4⟩ ?_
  refine consume_trans ⟨year, (pDigits_eq_some h5).1⟩ ?_
  refine consume_trans ⟨[':'], pChar_eq_some h6⟩ ?_
  refine consume_trans ⟨hh, (pDigits_eq_some h7).1⟩ ?_
  refine consume_trans ⟨[':'], pChar_eq_some h8⟩ ?_
  refine consume_trans ⟨mi, (pDigits_eq_some h9).1⟩ ?_
  refine consume_trans ⟨[':'], pChar_eq_some h10⟩ ?_
  refine consume_trans ⟨ss, (pDigits_eq_some h11).1⟩ ?_
  refine consume_trans ⟨[' '], pChar_eq_some h12⟩ ?_
  refine consume_trans ⟨[sg], pSign_eq_some h13⟩ ?_
  exact ⟨off, (pDigits_eq_some h14).1⟩

/-- Inversion of one successful `logLineRegExp` attempt: the line decomposes
around the section/resource captures (which sit between two spaces), the
section is a `/` followed by slash-free space-free characters, the resource is
space-free, and the status capture is exactly three digits. -/
theorem matchAt_inv {l : Chars} {g : Groups} (h : matchAt l = some g) :
    (∃ pre rest, l = pre ++ ' ' :: (g.g7 ++ (g.g8 ++ ' ' :: rest))) ∧
    (∃ t, g.g7 = '/' :: t ∧ ∀ c ∈ t, c ≠ '/' ∧ c ≠ ' ') ∧
    (∀ c ∈ g.g8, c ≠ ' ') ∧
    g.g10.length = 3 ∧ g.g10.all isDigitCh = true := by
  unfold matchAt at h
  split at h
  · simp at h
  rename_i ip r1 hq1
  split at h
  · simp at h
  rename_i r2 hq2
  split at h
  · simp at h
  rename_i user r3 hq3
  split at h
  · simp at h
  rename_i r4 hq4
  split at h
  · simp at h
  rename_i tsp r5 hq5
  split at h
  · simp at h
  rename_i r6 hq6
  split at h
  · simp at h
  rename_i meth r7 hq7
  split at h
  · simp at h
  rename_i r8 hq8
  split at h
  · simp at h
  rename_i sec r9 hq9
  split at h
  rename_i res r10 hq10
  split at h
  · simp at h
  rename_i r11 hq11
  split at h
  · simp at h
  rename_i proto r12 hq12
  split at h
  · simp at h
  rename_i r13 hq13
  split at h
  · simp at h
  rename_i status r14 hq14
  split at h
  · simp at h
  rename_i r15 hq15
  split at h
  · simp at h
  rename_i size r16 hq16
  obtain rfl : g = Groups.mk ip user tsp meth sec res proto status size := by
    have := h.symm
    simpa using this
  have hpre : ∃ pre, l = pre ++ r7 := by
    refine consume_trans ⟨ip, (pPlus_eq_some hq1).1⟩ ?_
    refine consume_trans ⟨[' ', '-', ' '], pLit_eq_some hq2⟩ ?_
    refine consume_trans ⟨user, (pPlus_eq_some hq3).1⟩ ?_
    refine consume_trans ⟨[' ', '['], pLit_eq_some hq4⟩ ?_
    refine consume_trans (pTs_eq_some hq5) ?_
    refine consume_trans ⟨[']', ' ', '"'], pLit_eq_some hq6⟩ ?_
    exact ⟨meth, (pAlt_eq_some hq7).1⟩
  obtain ⟨pre, hl⟩ := hpre
  obtain ⟨hsec, tsec, hsec2, hsec3⟩ :
      r8 = sec ++ r9 ∧ ∃ t, sec = '/' :: t ∧ ∀ c ∈ t, c ≠ '/' ∧ c ≠ ' ' := by
    obtain ⟨a, b⟩ := pSection_eq_some hq9
    obtain ⟨t, ht⟩ := b
    exact ⟨a, t, ht.1, ht.2⟩
  obtain ⟨hres, hres2⟩ := pStar_eq hq10
  refine ⟨⟨pre, r11, ?_⟩, ⟨tsec, hsec2, hsec3⟩, ?_, ?_, ?_⟩
  · rw [hl, pChar_eq_some hq8, hsec, hres, pChar_eq_some hq11]
  · intro c hc
    have := hres2 c hc
    simpa using this
  · exact (pDigits_eq_some hq14).2.1
  · exact (pDigits_eq_some hq14).2.2

/-- Inversion of the unanchored search: a match is an attempt that succeeded
at some split point of the line. -/
theorem findMatch_some : ∀ {l : Chars} {g : Groups}, findMatch l = some g →
    ∃ p q, l = p ++ q ∧ matchAt q = some g := by
  intro l
  induction l with
  | nil => exact fun h => ⟨[], [], rfl, h⟩
  | cons x xs ih =>
    intro g h
    unfold findMatch at h
    cases hm : matchAt (x :: xs) with
    | some g' =>
      rw [hm] at h
      obtain rfl : g' = g := by simpa using h
      exact ⟨[], x :: xs, rfl, hm⟩
    | none =>
      rw [hm] at h
      obtain ⟨p, q, hpq, hq⟩ := ih h
      exact ⟨x :: p, q, by rw [hpq]; rfl, hq⟩

/-- Inversion of `parseLogLine` in the success case: the groups, the parsed
timestamp and the parsed status exist, and the record is built from them
field by field. -/
theorem parseLogLine_ok {s : Chars} {r : Log} (h : parseLogLine s = ParseResult.ok r) :
    ∃ g ts code, findMatch s = some g ∧ goParseTimestamp g.ts = some ts ∧
      goAtoi g.g10 = some code ∧
      r = { IP := g.g1, Identity := ['-'], User := g.g3, Timestamp := ts,
            Action := g.g6, Section := g.g7, Resource := g.g8, Protocol := g.g9,
            StatusCode := code, Size := (goAtoi g.g11).getD 0 } := by
  unfold parseLogLine at h
  split at h
  · simp at h
  rename_i g hg
  split at h
  · simp at h
  rename_i ts hts
  split at h
  · simp at h
  rename_i code hcode
  obtain rfl : _ = r := by simpa using h
  exact ⟨g, ts, code, hg, hts, hcode, rfl⟩

/-! ## Lemmas about digits and `strconv.Atoi` -/

theorem digit_bounds {c : Char} (h : isDigitCh c = true) :
    48 ≤ c.toNat ∧ c.toNat ≤ 57 := by
  unfold isDigitCh at h
  simp only [Bool.and_eq_true, decide_eq_true_eq] at h
  exact h

theorem digits_foldl_lt :
    ∀ (l : Chars), (∀ c ∈ l, isDigitCh c = true) →
      ∀ a : Nat, l.foldl (fun a c => 10 * a + (c.toNat - 48)) a < (a + 1) * 10 ^ l.length
  | [], _, a => by simp
  | c :: t, hl, a => by
    obtain ⟨hc1, hc2⟩ := digit_bounds (hl c (List.mem_cons_self c t))
    have ht : ∀ c' ∈ t, isDigitCh c' = true := fun c' hc' => hl c' (List.mem_cons_of_mem c hc')
    have ih := digits_foldl_lt t ht (10 * a + (c.toNat - 48))
    have hstep : (10 * a + (c.toNat - 48) + 1) * 10 ^ t.length ≤ (a + 1) * 10 ^ (c :: t).length := by
      have h1 : 10 * a + (c.toNat - 48) + 1 ≤ (a + 1) * 10 := by omega
      calc (10 * a + (c.toNat - 48) + 1) * 10 ^ t.length
          ≤ ((a + 1) * 10) * 10 ^ t.length := Nat.mul_le_mul_right _ h1
        _ = (a + 1) * 10 ^ (c :: t).length := by
            rw [List.length_cons, pow_succ]; ring
    calc (c :: t).foldl (fun a c => 10 * a + (c.toNat - 48)) a
        = t.foldl (fun a c => 10 * a + (c.toNat - 48)) (10 * a + (c.toNat - 48)) := rfl
      _ < (10 * a + (c.toNat - 48) + 1) * 10 ^ t.length := ih
      _ ≤ (a + 1) * 10 ^ (c :: t).length := hstep

theorem digitsToNat_lt {l : Chars} (hd : ∀ c ∈ l, isDigitCh c = true) :
    digitsToNat l < 10 ^ l.length := by
  have := digits_foldl_lt l hd 0
  simpa [digitsToNat] using this

/-- `strconv.Atoi` on a run of exactly three digits returns their value. -/
theorem goAtoi_digits3 {l : Chars} (h3 : l.length = 3) (hd : l.all isDigitCh = true) :
    goAtoi l = some ((digitsToNat l : Nat) : Int) := by
  cases l with
  | nil => simp at h3
  | cons c t =>
    have hall : ∀ c' ∈ c :: t, isDigitCh c' = true := by
      intro c' hc'; exact List.all_eq_true.mp hd c' hc'
    obtain ⟨hc1, hc2⟩ := digit_bounds (hall c (List.mem_cons_self c t))
    have hcm : ¬(c = '-') := by
      intro hcon; rw [hcon] at hc1; simp at hc1
    have hcp : ¬(c = '+') := by
      intro hcon; rw [hcon] at hc1; simp at hc1
    have hlt : digitsToNat (c :: t) < 1000 := by
      have := digitsToNat_lt hall
      rw [List.length_cons] at this
      have h2 : t.length = 2 := by simpa using h3
      rw [h2] at this
      simpa using this
    unfold goAtoi
    simp only [hcm, hcp, decide_eq_true_eq, decide_eq_false_iff_not, not_false_eq_true,
      Bool.or_eq_true, or_self, if_neg, hd, Bool.not_true, Bool.false_eq_true, or_false,
      reduceCtorEq, if_false]
    rw [if_pos (by omega : digitsToNat (c :: t) ≤ 9223372036854775807)]

/-! ## Lemmas about the monitor -/

theorem updateAlerting_window (thr : ℚ) (s : stats) (l : Log) :
    (updateAlerting thr s l).logsInWindow = evictLoop (s.logsInWindow ++ [l]) := by
  cases h : getQueryRate (evictLoop (s.logsInWindow ++ [l])) <;>
    simp [updateAlerting, h]

theorem updateAlerting_http (thr : ℚ) (s : stats) (l : Log) :
    (updateAlerting thr s l).httpResponseCodes = s.httpResponseCodes := by
  cases h : getQueryRate (evictLoop (s.logsInWindow ++ [l])) <;>
    simp [updateAlerting, h]

theorem updateAlerting_sections (thr : ℚ) (s : stats) (l : Log) :
    (updateAlerting thr s l).sectionCounts = s.sectionCounts := by
  cases h : getQueryRate (evictLoop (s.logsInWindow ++ [l])) <;>
    simp [updateAlerting, h]

theorem updateStats_window (thr : ℚ) (s : stats) (l : Log) :
    (updateStats thr s l).logsInWindow = evictLoop (s.logsInWindow ++ [l]) := by
  unfold updateStats
  rw [updateAlerting_window]

theorem updateStats_http (thr : ℚ) (s : stats) (l : Log) :
    (updateStats thr s l).httpResponseCodes =
      mapIncr s.httpResponseCodes (responseClass l.StatusCode) := by
  unfold updateStats
  rw [updateAlerting_http]

theorem updateStats_sections (thr : ℚ) (s : stats) (l : Log) :
    (updateStats thr s l).sectionCounts = mapIncr s.sectionCounts l.Section := by
  unfold updateStats
  rw [updateAlerting_sections]

theorem evictLoop_suffix : ∀ l : List Log, evictLoop l <:+ l
  | [] => List.suffix_refl []
  | x :: xs => by
    unfold evictLoop
    split
    · exact (evictLoop_suffix xs).trans (List.suffix_cons x xs)
    · exact List.suffix_refl _

theorem evictLoop_ne_nil : ∀ {l : List Log}, l ≠ [] → evictLoop l ≠ []
  | [], h => absurd rfl h
  | x :: xs, _ => by
    unfold evictLoop
    split
    · rename_i hgt
      cases xs with
      | nil => simp [getDelta] at hgt
      | cons y ys => exact evictLoop_ne_nil (by simp)
    · simp

theorem evictLoop_delta_le : ∀ {l : List Log}, l ≠ [] → getDelta (evictLoop l) ≤ 120
  | [], h => absurd rfl h
  | x :: xs, _ => by
    unfold evictLoop
    split
    · rename_i hgt
      cases xs with
      | nil => simp [getDelta] at hgt
      | cons y ys => exact evictLoop_delta_le (by simp)
    · rename_i hle
      omega

/-- Minimality of the eviction: every window strictly between the retained
suffix and the appended window was popped because its span exceeded 120 s. -/
theorem evictLoop_dropped : ∀ (l t : List Log), evictLoop l <:+ t → t <:+ l →
    t ≠ evictLoop l → 120 < getDelta t
  | [], t, _, h2, hne => by
    rw [List.suffix_nil] at h2
    subst h2
    exact absurd rfl hne
  | x :: xs, t, h1, h2, hne => by
    by_cases hgt : 120 < getDelta (x :: xs)
    · have hev : evictLoop (x :: xs) = evictLoop xs := by
        rw [evictLoop, if_pos hgt]
      rw [hev] at h1 hne
      rcases List.suffix_cons_iff.mp h2 with h2' | h2'
      · rw [h2']; exact hgt
      · exact evictLoop_dropped xs t h1 h2' hne
    · have hev : evictLoop (x :: xs) = x :: xs := by
        rw [evictLoop, if_neg hgt]
      rw [hev] at h1
      exact absurd ((h2.sublist.antisymm h1.sublist).trans hev.symm) hne

theorem suffix_append_same {α : Type} {l₁ l₂ t : List α} (h : l₁ <:+ l₂) :
    l₁ ++ t <:+ l₂ ++ t := by
  obtain ⟨c, rfl⟩ := h
  exact ⟨c, (List.append_assoc ..).symm⟩

theorem ingestAll_window_suffix (thr : ℚ) : ∀ (rs : List Log) (s : stats),
    (ingestAll thr s rs).logsInWindow <:+ s.logsInWindow ++ rs
  | [], s => by simp [ingestAll]
  | r :: rest, s => by
    have h1 := ingestAll_window_suffix thr rest (updateStats thr s r)
    have h2 : (updateStats thr s r).logsInWindow <:+ s.logsInWindow ++ [r] := by
      rw [updateStats_window]; exact evictLoop_suffix _
    have h3 : (updateStats thr s r).logsInWindow ++ rest <:+ (s.logsInWindow ++ [r]) ++ rest :=
      suffix_append_same h2
    have h4 : ingestAll thr s (r :: rest) = ingestAll thr (updateStats thr s r) rest := rfl
    rw [h4]
    refine h1.trans ?_
    rw [List.append_assoc] at h3
    simpa using h3

theorem getQueryRate_of_ne_nil {w : List Log} (h : w ≠ []) :
    getQueryRate w = Except.ok (qpsOfWindow w) := by
  unfold getQueryRate
  rw [if_pos (List.length_pos.mpr h)]

theorem updateAlerting_alerting (thr : ℚ) (s : stats) (l : Log) :
    (updateAlerting thr s l).alerting =
      floatGt (qpsOfWindow (evictLoop (s.logsInWindow ++ [l]))) thr := by
  have hne : evictLoop (s.logsInWindow ++ [l]) ≠ [] := evictLoop_ne_nil (by simp)
  simp [updateAlerting, getQueryRate_of_ne_nil hne]

theorem updateStats_alerting (thr : ℚ) (s : stats) (l : Log) :
    (updateStats thr s l).alerting =
      floatGt (qpsOfWindow (evictLoop (s.logsInWindow ++ [l]))) thr := by
  unfold updateStats
  rw [updateAlerting_alerting]

/-! ## Lemmas about the Go maps -/

theorem mapIncr_keys (m : List (Chars × Nat)) (k : Chars) :
    (mapIncr m k).map Prod.fst =
      if k ∈ m.map Prod.fst then m.map Prod.fst else m.map Prod.fst ++ [k] := by
  induction m with
  | nil => simp [mapIncr]
  | cons kv rest ih =>
    by_cases hk : kv.1 = k
    · simp [mapIncr, hk]
    · by_cases hmem : k ∈ rest.map Prod.fst
      · simp [mapIncr, hk, ih, hmem, Ne.symm hk]
      · simp [mapIncr, hk, ih, hmem, Ne.symm hk]

theorem mapIncr_sum (m : List (Chars × Nat)) (k : Chars) :
    sumVals (mapIncr m k) = sumVals m + 1 := by
  induction m with
  | nil => simp [mapIncr, sumVals]
  | cons kv rest ih =>
    by_cases hk : kv.1 = k
    · simp [mapIncr, hk, sumVals]
      omega
    · simp [mapIncr, hk, sumVals] at *
      omega

/-! ## Response-class and ingestion invariants -/

set_option maxRecDepth 10000 in
theorem respClassNat_mem : ∀ n : Nat, n < 600 → 100 ≤ n →
    ((Nat.repr n).data.take 1 ++ ['X', 'X']) ∈ fiveKeys := by decide

theorem responseClass_mem_fiveKeys {code : Int} (h1 : 100 ≤ code) (h2 : code ≤ 599) :
    responseClass code ∈ fiveKeys := by
  obtain ⟨n, rfl⟩ : ∃ n : Nat, code = (n : Int) := ⟨code.toNat, by omega⟩
  have hn1 : 100 ≤ n := by omega
  have hn2 : n < 600 := by omega
  exact respClassNat_mem n hn2 hn1

theorem ingestAll_keys_sub (thr : ℚ) : ∀ (rs : List Log) (s : stats),
    s.httpResponseCodes.map Prod.fst ⊆ (ingestAll thr s rs).httpResponseCodes.map Prod.fst
  | [], _ => by simp [ingestAll]
  | r :: rest, s => by
    have step : s.httpResponseCodes.map Prod.fst ⊆
        (updateStats thr s r).httpResponseCodes.map Prod.fst := by
      rw [updateStats_http, mapIncr_keys]
      split
      · exact fun a ha => ha
      · exact fun a ha => List.mem_append_left _ ha
    exact step.trans (ingestAll_keys_sub thr rest (updateStats thr s r))

theorem ingestAll_keys_eq (thr : ℚ) : ∀ (rs : List Log) (s : stats),
    s.httpResponseCodes.map Prod.fst = fiveKeys →
    (∀ r ∈ rs, 100 ≤ r.StatusCode ∧ r.StatusCode ≤ 599) →
    (ingestAll thr s rs).httpResponseCodes.map Prod.fst = fiveKeys
  | [], _, hs, _ => by simpa [ingestAll] using hs
  | r :: rest, s, hs, hr => by
    have h1 := hr r (List.mem_cons_self r rest)
    have hkeys : (updateStats thr s r).httpResponseCodes.map Prod.fst = fiveKeys := by
      rw [updateStats_http, mapIncr_keys, hs,
        if_pos (responseClass_mem_fiveKeys h1.1 h1.2)]
    exact ingestAll_keys_eq thr rest _ hkeys
      (fun r' hr' => hr r' (List.mem_cons_of_mem _ hr'))

theorem ingestAll_sums (thr : ℚ) : ∀ (rs : List Log) (s : stats),
    sumVals (ingestAll thr s rs).httpResponseCodes = sumVals s.httpResponseCodes + rs.length ∧
    sumVals (ingestAll thr s rs).sectionCounts = sumVals s.sectionCounts + rs.length
  | [], s => by simp [ingestAll]
  | r :: rest, s => by
    obtain ⟨ih1, ih2⟩ := ingestAll_sums thr rest (updateStats thr s r)
    have hstep : ingestAll thr s (r :: rest) = ingestAll thr (updateStats thr s r) rest := rfl
    constructor
    · rw [hstep, ih1, updateStats_http, mapIncr_sum]
      simp
      omega
    · rw [hstep, ih2, updateStats_sections, mapIncr_sum]
      simp
      omega

/-! ## The claims -/

/-- C1.  The claim says a degenerate single-entry window leaves the alerting
flag unchanged and keeps the division-by-zero float artifact out of the alert
decision.  The code does the opposite: ingesting the very first record leaves
exactly one entry in the window, `getQueryRate` computes
`float64(1)/0.0 = +Inf` with a nil error, and `updateAlerting` sets
`alerting := (+Inf > 10.0) = true` — a NotAlerting→Alerting transition on a
degenerate window, driven by the division-by-zero artifact.  This theorem
evaluates the embedded code at that failing input. -/
theorem claim1_code_eval :
    initStats.alerting = false ∧
    (updateStats 10 initStats (mkLog 0)).logsInWindow.length = 1 ∧
    (updateStats 10 initStats (mkLog 0)).alerting = true := by
  decide

/-- C2, counterexample.  The claim says every line that does not match the
grammar is reported to the caller as an error value and never aborts the
process.  On the non-matching line `"hi"` the code reaches
`log.Panicf` (a process abort), not an error return. -/
theorem claim2_counterexample :
    parseLogLine ['h', 'i'] = ParseResult.panicked ∧
    parseLogLine ['h', 'i'] ≠ ParseResult.failed := by
  exact ⟨rfl, by decide⟩

/-- C2, amended.  A line that does not match `logLineRegExp` makes
`parseLogLine` call `log.Panicf` (a process abort); only lines that do match
can produce a non-panic outcome (an error value for a bad timestamp, or a
record). -/
theorem claim2_amended (s : Chars) :
    (findMatch s = none → parseLogLine s = ParseResult.panicked) ∧
    (∀ g, findMatch s = some g → parseLogLine s ≠ ParseResult.panicked) := by
  constructor
  · intro h
    unfold parseLogLine
    rw [h]
  · intro g h
    unfold parseLogLine
    rw [h]
    cases hts : goParseTimestamp g.ts with
    | none => simp [hts]
    | some ts =>
      cases hcode : goAtoi g.g10 with
      | none => simp [hts, hcode]
      | some code => simp [hts, hcode]

/-- Witness for C2 at the concrete non-matching line `"hi"`. -/
theorem claim2_witness : parseLogLine ['h', 'i'] = ParseResult.panicked :=
  (claim2_amended ['h', 'i']).1 rfl

/-- C3.  For records ingested in non-decreasing timestamp order, after each
ingest the window is non-empty, is a suffix of the previous window with the
new record appended (entries are evicted only from the front, in order), its
newest-to-oldest span is at most 120 seconds, it is still sorted, and every
longer suffix that was popped had a span exceeding 120 seconds. -/
theorem claim3_window_invariant (thr : ℚ) (xs : List Log) (r : Log)
    (hsort : List.Pairwise (fun a b : Log => a.Timestamp ≤ b.Timestamp) (xs ++ [r])) :
    (updateStats thr (ingestAll thr initStats xs) r).logsInWindow ≠ [] ∧
    (updateStats thr (ingestAll thr initStats xs) r).logsInWindow <:+
      (ingestAll thr initStats xs).logsInWindow ++ [r] ∧
    getDelta (updateStats thr (ingestAll thr initStats xs) r).logsInWindow ≤ 120 ∧
    List.Pairwise (fun a b : Log => a.Timestamp ≤ b.Timestamp)
      (updateStats thr (ingestAll thr initStats xs) r).logsInWindow ∧
    (∀ t, (updateStats thr (ingestAll thr initStats xs) r).logsInWindow <:+ t →
      t <:+ (ingestAll thr initStats xs).logsInWindow ++ [r] →
      t ≠ (updateStats thr (ingestAll thr initStats xs) r).logsInWindow →
      120 < getDelta t) := by
  have hwin : (ingestAll thr initStats xs).logsInWindow <:+ xs := by
    have h := ingestAll_window_suffix thr xs initStats
    simpa [initStats] using h
  have hsorted_app : List.Pairwise (fun a b : Log => a.Timestamp ≤ b.Timestamp)
      ((ingestAll thr initStats xs).logsInWindow ++ [r]) := by
    rcases List.pairwise_append.mp hsort with ⟨hxs, -, hcross⟩
    refine List.pairwise_append.mpr ⟨hxs.sublist hwin.sublist, List.pairwise_singleton .., ?_⟩
    intro a ha b hb
    rw [List.mem_singleton] at hb
    rw [hb]
    exact hcross a (hwin.sublist.subset ha) r (List.mem_singleton_self r)
  rw [updateStats_window]
  refine ⟨evictLoop_ne_nil (by simp), evictLoop_suffix _, evictLoop_delta_le (by simp),
    hsorted_app.sublist (evictLoop_suffix _).sublist,
    fun t h1 h2 h3 => evictLoop_dropped _ t h1 h2 h3⟩

/-- Witness for C3: five records spaced 60 s apart (the spec's own example);
after the fifth ingest the window is non-empty, was only trimmed at the
front, and spans at most 120 s. -/
theorem claim3_witness :
    (updateStats 10 (ingestAll 10 initStats [mkLog 0, mkLog 60, mkLog 120, mkLog 180])
        (mkLog 240)).logsInWindow ≠ [] ∧
    (updateStats 10 (ingestAll 10 initStats [mkLog 0, mkLog 60, mkLog 120, mkLog 180])
        (mkLog 240)).logsInWindow <:+
      (ingestAll 10 initStats [mkLog 0, mkLog 60, mkLog 120, mkLog 180]).logsInWindow ++
        [mkLog 240] ∧
    getDelta (updateStats 10 (ingestAll 10 initStats [mkLog 0, mkLog 60, mkLog 120, mkLog 180])
        (mkLog 240)).logsInWindow ≤ 120 := by
  obtain ⟨h1, h2, h3, -, -⟩ :=
    claim3_window_invariant 10 [mkLog 0, mkLog 60, mkLog 120, mkLog 180] (mkLog 240)
      (by decide)
  exact ⟨h1, h2, h3⟩

/-- C4, counterexample.  The claim says that whenever the window holds at
least two entries the flag equals `count/span > threshold`.  Ingesting two
records with the same timestamp from the initial state leaves two entries
with span 0: read exactly, the claimed rate `2/0` is not a value exceeding
the threshold (in exact arithmetic `(2 : ℚ)/0 = 0`), yet the code sets the
flag to `true`, because the float division yields `+Inf`. -/
theorem claim4_counterexample :
    (updateStats 10 (updateStats 10 initStats (mkLog 5)) (mkLog 5)).logsInWindow.length = 2 ∧
    (updateStats 10 (updateStats 10 initStats (mkLog 5)) (mkLog 5)).alerting = true ∧
    ¬((((updateStats 10 (updateStats 10 initStats (mkLog 5)) (mkLog 5)).logsInWindow.length : ℚ) /
        ((getDelta (updateStats 10 (updateStats 10 initStats (mkLog 5)) (mkLog 5)).logsInWindow :
          Int) : ℚ)) > 10) := by
  refine ⟨by decide, by decide, ?_⟩
  have hlen : (updateStats 10 (updateStats 10 initStats (mkLog 5)) (mkLog 5)).logsInWindow.length
      = 2 := by decide
  have hdel : getDelta (updateStats 10 (updateStats 10 initStats (mkLog 5)) (mkLog 5)).logsInWindow
      = 0 := by decide
  rw [hlen, hdel]
  norm_num

/-- C4, amended.  After an ingest whose resulting window holds at least two
entries *with a non-zero span*, the alerting flag equals
`count/span > threshold` — it becomes true on every strict crossing and false
otherwise, with no hysteresis band.  (When the span is zero the float rate is
`+Inf` and the flag is set to `true` instead.) -/
theorem claim4_amended (thr : ℚ) (s : stats) (r : Log)
    (_h2 : 2 ≤ (updateStats thr s r).logsInWindow.length)
    (hd : getDelta (updateStats thr s r).logsInWindow ≠ 0) :
    (updateStats thr s r).alerting =
      decide ((((updateStats thr s r).logsInWindow.length : ℚ) /
        ((getDelta (updateStats thr s r).logsInWindow : Int) : ℚ)) > thr) := by
  rw [updateStats_window] at hd ⊢
  rw [updateStats_alerting]
  unfold qpsOfWindow
  rw [if_neg hd]
  rfl

/-- Witness for C4: two records one second apart from the initial state;
the window has two entries, span 1, rate 2, and the flag is
`decide (2/1 > 10) = false`. -/
theorem claim4_witness :
    (updateStats 10 (updateStats 10 initStats (mkLog 0)) (mkLog 1)).alerting =
      decide ((((updateStats 10 (updateStats 10 initStats (mkLog 0)) (mkLog 1)).logsInWindow.length : ℚ) /
        ((getDelta (updateStats 10 (updateStats 10 initStats (mkLog 0)) (mkLog 1)).logsInWindow :
          Int) : ℚ)) > 10) :=
  claim4_amended 10 (updateStats 10 initStats (mkLog 0)) (mkLog 1) (by decide) (by decide)

/-- On every successful match the status capture is a run of exactly three
digits, so `strconv.Atoi` on it succeeds with its numeric value. -/
theorem findMatch_status {s : Chars} {g : Groups} (h : findMatch s = some g) :
    goAtoi g.g10 = some ((digitsToNat g.g10 : Nat) : Int) := by
  obtain ⟨p, q, -, hq⟩ := findMatch_some h
  obtain ⟨-, -, -, hlen, hdig⟩ := matchAt_inv hq
  exact goAtoi_digits3 hlen hdig

/-- C5, counterexample.  The claim says a status field outside 100–599 is a
hard parse failure and a returned record always has `statusCode` in 100–599.
The regex only requires three digits: the line with status `600` parses
successfully into a record with `StatusCode = 600`. -/
theorem claim5_counterexample :
    parseLogLine line600 = ParseResult.ok rec600 ∧ ¬(rec600.StatusCode ≤ 599) := by
  exact ⟨rfl, by decide⟩

/-- C5, amended.  The status field is constrained to exactly three digits and
is never range-checked: a returned record's `StatusCode` is between 0 and
999 (e.g. `099` yields 99 and `600` yields 600). -/
theorem claim5_amended (s : Chars) (r : Log) (h : parseLogLine s = ParseResult.ok r) :
    0 ≤ r.StatusCode ∧ r.StatusCode ≤ 999 := by
  obtain ⟨g, ts, code, hg, hts, hcode, rfl⟩ := parseLogLine_ok h
  rw [findMatch_status hg] at hcode
  obtain rfl : ((digitsToNat g.g10 : Nat) : Int) = code := by simpa using hcode
  obtain ⟨p, q, -, hq⟩ := findMatch_some hg
  obtain ⟨-, -, -, hlen, hdig⟩ := matchAt_inv hq
  have hlt : digitsToNat g.g10 < 1000 := by
    have h1 := digitsToNat_lt (fun c hc => List.all_eq_true.mp hdig c hc)
    rw [hlen] at h1
    simpa using h1
  refine ⟨?_, ?_⟩
  · show (0 : Int) ≤ ((digitsToNat g.g10 : Nat) : Int)
    omega
  · show ((digitsToNat g.g10 : Nat) : Int) ≤ 999
    omega

/-- Witness for C5 at the Go test line (status 200). -/
theorem claim5_witness : 0 ≤ recOK.StatusCode ∧ recOK.StatusCode ≤ 999 :=
  claim5_amended lineOK recOK rfl

/-- C6, counterexample.  The claim says the histogram always holds exactly
the five keys `1XX..5XX`.  The parser accepts status `600` (see C5), and
ingesting that record adds the key `6XX`: the histogram then has six keys. -/
theorem claim6_counterexample :
    parseLogLine line600 = ParseResult.ok rec600 ∧
    (updateStats 10 initStats rec600).httpResponseCodes.map Prod.fst =
      fiveKeys ++ [['6', 'X', 'X']] := by
  exact ⟨rfl, by decide⟩

/-- C6, amended.  The five keys `1XX..5XX` are present from initialization
onwards and are never removed; ingest adds no further key as long as every
ingested record's status code lies in 100–599 (records outside that range —
which the parser can produce — add further keys such as `6XX`). -/
theorem claim6_amended (thr : ℚ) (rs : List Log) :
    (∀ k ∈ fiveKeys, k ∈ (ingestAll thr initStats rs).httpResponseCodes.map Prod.fst) ∧
    ((∀ r ∈ rs, 100 ≤ r.StatusCode ∧ r.StatusCode ≤ 599) →
      (ingestAll thr initStats rs).httpResponseCodes.map Prod.fst = fiveKeys) := by
  constructor
  · intro k hk
    refine ingestAll_keys_sub thr rs initStats ?_
    simpa [initStats, fiveKeys] using hk
  · exact ingestAll_keys_eq thr rs initStats (by simp [initStats, fiveKeys])

/-- Witness for C6: one record with status 200 keeps exactly the five keys,
and `1XX` is among them. -/
theorem claim6_witness :
    ((['1', 'X', 'X'] : Chars) ∈
      (ingestAll 10 initStats [mkLog 0]).httpResponseCodes.map Prod.fst) ∧
    (ingestAll 10 initStats [mkLog 0]).httpResponseCodes.map Prod.fst = fiveKeys :=
  ⟨(claim6_amended 10 [mkLog 0]).1 ['1', 'X', 'X'] (by decide),
   (claim6_amended 10 [mkLog 0]).2 (by decide)⟩

/-- C7.  Every successfully parsed record has a section that starts with `/`
and contains no further `/`; the concatenation `Section ++ Resource` is
space-free and sits in the original line as the complete space-delimited
request-target token (between the space after the method and the space
before the protocol), i.e. it reconstructs the original request path. -/
theorem claim7_section_resource (s : Chars) (r : Log)
    (h : parseLogLine s = ParseResult.ok r) :
    (∃ t, r.Section = '/' :: t ∧ ∀ c ∈ t, c ≠ '/') ∧
    (∀ c ∈ r.Section ++ r.Resource, c ≠ ' ') ∧
    (∃ pre rest, s = pre ++ ' ' :: (r.Section ++ (r.Resource ++ ' ' :: rest))) := by
  obtain ⟨g, ts, code, hg, hts, hcode, rfl⟩ := parseLogLine_ok h
  obtain ⟨p, q, rfl, hq⟩ := findMatch_some hg
  obtain ⟨⟨pre, rest, hdecomp⟩, ⟨t, hsec, hsec2⟩, hres, -, -⟩ := matchAt_inv hq
  refine ⟨⟨t, hsec, fun c hc => (hsec2 c hc).1⟩, ?_, ⟨p ++ pre, rest, ?_⟩⟩
  · intro c hc
    rcases List.mem_append.mp hc with hc | hc
    · rw [hsec] at hc
      rcases List.mem_cons.mp hc with rfl | hc
      · decide
      · exact (hsec2 c hc).2
    · exact hres c hc
  · rw [hdecomp, List.append_assoc]

/-- Witness for C7 at the Go test line: section `/api`, resource `/user`. -/
theorem claim7_witness :
    (∃ t, recOK.Section = '/' :: t ∧ ∀ c ∈ t, c ≠ '/') ∧
    (∀ c ∈ recOK.Section ++ recOK.Resource, c ≠ ' ') ∧
    (∃ pre rest, lineOK = pre ++ ' ' :: (recOK.Section ++ (recOK.Resource ++ ' ' :: rest))) :=
  claim7_section_resource lineOK recOK rfl

/-- C8, counterexample.  The claim says every line matching the grammar with
a non-numeric size field parses successfully with size 0.  `lineBadTs`
matches the grammar and has size field `-`, yet `parseLogLine` returns an
error value, because its date (February 31) fails timestamp parsing. -/
theorem claim8_counterexample :
    (findMatch lineBadTs).isSome = true ∧
    (findMatch lineBadTs).map (fun g => g.g11) = some ['-'] ∧
    parseLogLine lineBadTs = ParseResult.failed := by
  exact ⟨rfl, rfl, rfl⟩

/-- C8, amended.  For every line matching the grammar whose timestamp also
parses and whose size field `strconv.Atoi` rejects (e.g. `-`), parsing
succeeds and substitutes 0 for the size; every other field is built from its
own capture group exactly as in the numeric-size case. -/
theorem claim8_amended (s : Chars) (g : Groups) (ts : Int)
    (hg : findMatch s = some g) (hts : goParseTimestamp g.ts = some ts)
    (hsz : goAtoi g.g11 = none) :
    parseLogLine s = ParseResult.ok
      { IP := g.g1, Identity := ['-'], User := g.g3, Timestamp := ts,
        Action := g.g6, Section := g.g7, Resource := g.g8, Protocol := g.g9,
        StatusCode := ((digitsToNat g.g10 : Nat) : Int), Size := 0 } := by
  unfold parseLogLine
  rw [hg]
  simp only [hts, findMatch_status hg, hsz, Option.getD_none]

/-- Witness for C8 at the valid-date line with size `-`. -/
theorem claim8_witness : parseLogLine lineDash = ParseResult.ok recDash :=
  claim8_amended lineDash
    { g1 := "127.0.0.1".data, g3 := "jill".data,
      ts := { dayC := ['0', '9'], monC := "May".data, yearC := "2018".data,
              hourC := ['1', '6'], minC := ['0', '0'], secC := ['4', '1'],
              offSign := '+', offC := ['0', '0', '0', '0'] },
      g6 := "GET".data, g7 := "/api".data, g8 := "/user".data,
      g9 := "HTTP/1.0".data, g10 := ['2', '0', '0'], g11 := ['-'] }
    1525881641 rfl rfl rfl

/-- C9.  `getQueryRate` returns an error exactly when the window is empty;
on a non-empty window it returns the same rate value the alert decision
uses (the flag is that value compared against the threshold), and whenever
the span is non-zero that value is count divided by span in seconds. -/
theorem claim9_rate_query (w : List Log) (thr : ℚ) (s : stats) (l : Log) :
    ((∃ e, getQueryRate w = Except.error e) ↔ w = []) ∧
    (w ≠ [] → getQueryRate w = Except.ok (qpsOfWindow w)) ∧
    (getDelta w ≠ 0 →
      qpsOfWindow w = GoFloat.val ((w.length : ℚ) / ((getDelta w : Int) : ℚ))) ∧
    ((updateAlerting thr s l).alerting =
      floatGt (qpsOfWindow ((updateAlerting thr s l).logsInWindow)) thr) := by
  refine ⟨⟨?_, ?_⟩, fun h => getQueryRate_of_ne_nil h, fun h => ?_, ?_⟩
  · rintro ⟨e, he⟩
    by_contra hne
    rw [getQueryRate_of_ne_nil hne] at he
    simp at he
  · rintro rfl
    exact ⟨"Logs window is empty", rfl⟩
  · unfold qpsOfWindow
    rw [if_neg h]
  · rw [updateAlerting_window, updateAlerting_alerting]

/-- Witness for C9: a one-record window gives a nil error and the `+Inf`
rate; the empty window gives the error; a two-record window with span 1
gives rate 2/1. -/
theorem claim9_witness :
    getQueryRate [mkLog 0] = Except.ok GoFloat.inf ∧
    getQueryRate ([] : List Log) = Except.error ("Logs window is empty") ∧
    qpsOfWindow [mkLog 0, mkLog 1] = GoFloat.val ((2 : ℚ) / 1) := by
  refine ⟨(claim9_rate_query [mkLog 0] 10 initStats (mkLog 0)).2.1 (by simp), rfl, ?_⟩
  have h := (claim9_rate_query [mkLog 0, mkLog 1] 10 initStats (mkLog 0)).2.2.1 (by decide)
  rw [h]
  norm_num [getDelta, mkLog]

/-- C10.  Starting from the initial state, after ingesting `k` records the
response-code histogram's counters sum to `k` and the section counters sum to
`k`: each ingest bumps exactly one counter in each map by exactly one. -/
theorem claim10_counts_sum (thr : ℚ) (rs : List Log) :
    sumVals (ingestAll thr initStats rs).httpResponseCodes = rs.length ∧
    sumVals (ingestAll thr initStats rs).sectionCounts = rs.length := by
  obtain ⟨h1, h2⟩ := ingestAll_sums thr rs initStats
  constructor
  · rw [h1]
    simp [initStats, sumVals]
  · rw [h2]
    simp [initStats, sumVals]

end HttpMonitor
